import Mathlib

/-!
Verification of the better-chess.js analysis engine (src/src/utils.ts and the
BetterChess class) against its specification.

The chess rules engine (chess.js) is an external collaborator per the spec
(§1, §6): it is modelled as a structure `Collab` of query functions over
board snapshots.  A snapshot is identified with its canonical FEN string
(the spec's "opaque, immutable serialized position"), so the source's
`new Chess(fen)` instances are represented by the `fen` value itself and
`chess.fen()` is the identity on snapshots.

All analysis-engine code (buildPieceInEffect, _getPiecesAlongRay, moveInfo,
moveAndAnalyze, getAnalysisAt) is translated from the source.
-/

abbrev Fen := String
abbrev SquareId := String

inductive Side where
  | w
  | b
deriving DecidableEq

/-- Mirror of the `turn === 'w' ? 'b' : 'w'` flips in the source. -/
def Side.flip : Side → Side
  | .w => .b
  | .b => .w

/-- Result of the collaborator's `get(square)`: a piece kind (chess.js letter
'p','n','b','r','q','k') and a color. -/
structure Piece where
  type : Char
  color : Side
deriving DecidableEq

/-- A verbose legal move as enumerated by the collaborator's
`moves({ verbose: true })`: the fields the analysis engine reads. -/
structure VMove where
  toSq : SquareId
  flags : List Char
  san : String
  captured : Option Char
  promotion : Option Char
deriving DecidableEq

/-- The result of the collaborator's `move(...)` as used by `moveAndAnalyze`:
destination square, the positions before and after, and the promotion kind. -/
structure MoveRes where
  toSq : SquareId
  before : Fen
  after : Fen
  promotion : Option Char
deriving DecidableEq

/-- The board collaborator interface (spec §6): piece lookup, square-attacker
lookup, legal-move enumeration, move application, serialized-state comparison
(snapshots are their canonical serializations), stalemate query, the
side-to-move rewrite used for the attack scan (`fen().replace(/\s[wb]\s/...)`),
and the stateful `move`/`turn` used by the BetterChess wrapper. -/
structure Collab where
  get : Fen → SquareId → Option Piece
  attackers : Fen → SquareId → Side → List SquareId
  movesAll : Fen → List VMove
  movesFrom : Fen → SquareId → List VMove
  applyFen : Fen → VMove → Option Fen
  isStalemate : Fen → Bool
  setTurn : Fen → Side → Fen
  doMove : Fen → String → Option MoveRes
  turnOf : Fen → Side

/-- `PieceInEffect` from src/src/types: square, piece kind, color, and
one-level attacker/defender descriptors. -/
inductive PieceInEffect where
  | mk (atSq : SquareId) (name : Char) (color : Side)
      (attackers : List PieceInEffect) (defenders : List PieceInEffect)

def PieceInEffect.atSq : PieceInEffect → SquareId
  | .mk a _ _ _ _ => a

def PieceInEffect.name : PieceInEffect → Char
  | .mk _ n _ _ _ => n

def PieceInEffect.color : PieceInEffect → Side
  | .mk _ _ c _ _ => c

def PieceInEffect.attackers : PieceInEffect → List PieceInEffect
  | .mk _ _ _ a _ => a

def PieceInEffect.defenders : PieceInEffect → List PieceInEffect
  | .mk _ _ _ _ d => d

instance : Inhabited PieceInEffect := ⟨.mk "" ' ' .w [] []⟩

inductive TacticKind where
  | fork
  | pin
  | skewer
  | doubleCheck
  | trap
deriving DecidableEq

structure TacticalMove where
  tactic : TacticKind
  targets : List PieceInEffect

inductive MoveType where
  | promotion
  | capture
  | check
  | checkmate
  | stalemate
  | enPassant
  | castling
  | normal
  | attacking
  | fianchetto
deriving DecidableEq

inductive Defense where
  | underdefended
  | undefended
  | defended
  | overdefended
deriving DecidableEq

structure MoveEffect where
  piece : PieceInEffect
  capturedPiece : Option PieceInEffect
  tactics : List TacticalMove
  attacks : List PieceInEffect
  defends : List PieceInEffect
  type : MoveType
  defense : Defense
  hangingW : List PieceInEffect
  hangingB : List PieceInEffect

instance : Inhabited MoveEffect :=
  ⟨{ piece := default, capturedPiece := none, tactics := [], attacks := [],
     defends := [], type := .normal, defense := .defended,
     hangingW := [], hangingB := [] }⟩

/-- The per-side hanging lists, as the source's `hangingPieces[color]`. -/
def MoveEffect.hangingFor (e : MoveEffect) : Side → List PieceInEffect
  | .w => e.hangingW
  | .b => e.hangingB

/-- `PIECE_VALS` (src/src/utils.ts lines 5-12). -/
def PIECE_VALS : Char → Nat
  | 'p' => 1
  | 'n' => 3
  | 'b' => 3
  | 'r' => 5
  | 'q' => 9
  | 'k' => 100
  | _ => 0

/-- The attacker/defender loop of `buildPieceInEffect` (src/src/utils.ts lines
51-62): iterate `[...whiteReachable, ...blackReachable]`, skip empty squares,
resolve each (via `sub`, the depth-guarded recursive call
`depth > 0 ? buildPieceInEffect(from, fen, 0) : null`), and remember the
occupant's color for the defender/attacker classification. -/
def levelPairs (C : Collab) (fen : Fen) (square : SquareId)
    (sub : SquareId → Option PieceInEffect) : List (Side × PieceInEffect) :=
  (C.attackers fen square Side.w ++ C.attackers fen square Side.b).filterMap
    (fun fr =>
      match C.get fen fr with
      | none => none
      | some p =>
        match sub fr with
        | none => none
        | some s => some (p.color, s))

/-- One level of `buildPieceInEffect`'s body (src/src/utils.ts lines 41-71):
the pushes `(p.color === color ? defenders : attackers).push(sub)` split
`levelPairs` by side-equality with the occupant, preserving iteration order. -/
def buildLevel (C : Collab) (square : SquareId) (fen : Fen)
    (sub : SquareId → Option PieceInEffect) : Option PieceInEffect :=
  match C.get fen square with
  | none => none
  | some piece =>
    some (PieceInEffect.mk square piece.type piece.color
      (((levelPairs C fen square sub).filter
        (fun z => !decide (z.1 = piece.color))).map Prod.snd)
      (((levelPairs C fen square sub).filter
        (fun z => decide (z.1 = piece.color))).map Prod.snd))

/-- `buildPieceInEffect(square, fen, depth)` (src/src/utils.ts lines 41-71):
when `depth > 0` each attacking square is resolved at depth 0, which is one
more `buildLevel` with the recursive call replaced by `null`. -/
def buildPieceInEffect (C : Collab) (square : SquareId) (fen : Fen) (depth : Nat) :
    Option PieceInEffect :=
  buildLevel C square fen (fun fr =>
    match depth with
    | 0 => none
    | _ + 1 => buildLevel C fr fen (fun _ => none))

/-- Character of `s` at JS index `i` (`s[i]`); squares are 2-character strings. -/
def charAt (s : String) (i : Nat) : Char := s.data.getD i ' '

/-- Numeric value of a rank digit character (`parseInt(s[1])`, `Number(rank)`). -/
def digitOf (c : Char) : Int := (c.toNat : Int) - 48

/-- `startSquare.charCodeAt(0)`. -/
def fileCode (s : SquareId) : Int := ((charAt s 0).toNat : Int)

/-- `parseInt(startSquare[1])`. -/
def rankNum (s : SquareId) : Int := digitOf (charAt s 1)

/-- `String.fromCharCode(x) + y`, the square label rebuilt from coordinates. -/
def mkSquare (x y : Int) : SquareId :=
  String.mk [Char.ofNat x.toNat] ++ toString y

/-- The while-loop guard `x >= 'a'.charCodeAt(0) && x <= 'h'.charCodeAt(0)
&& y >= 1 && y <= 8`. -/
def inBoard (x y : Int) : Prop :=
  97 ≤ x ∧ x ≤ 104 ∧ 1 ≤ y ∧ y ≤ 8

instance (x y : Int) : Decidable (inBoard x y) := by
  unfold inBoard; infer_instance

/-- The while loop of `_getPiecesAlongRay` (src/src/utils.ts lines 81-102),
with an explicit fuel.  Each iteration steps (dx,dy), so for the direction
vectors the source uses (|dx|,|dy| ≤ 1, not both 0) the in-bounds walk ends
within 8 iterations and fuel 16 never runs out before the loop's own exits. -/
def rayLoop (C : Collab) (fen : Fen) (dx dy : Int) :
    Nat → Int → Int → List PieceInEffect → List PieceInEffect
  | 0, _, _, acc => acc
  | fuel + 1, x, y, acc =>
    if inBoard x y then
      let currentSquare := mkSquare x y
      match C.get fen currentSquare with
      | some _ =>
        match buildPieceInEffect C currentSquare fen 0 with
        | none => acc
        | some pieceEffect =>
          let acc2 := acc ++ [pieceEffect]
          if acc2.length = 2 then acc2
          else rayLoop C fen dx dy fuel (x + dx) (y + dy) acc2
      | none => rayLoop C fen dx dy fuel (x + dx) (y + dy) acc
    else acc

/-- `_getPiecesAlongRay(chessInstance, startSquare, dx, dy, fen)`: at its only
call site the instance and the fen denote the same snapshot, so both are the
single `fen` here. -/
def getPiecesAlongRay (C : Collab) (fen : Fen) (startSquare : SquareId)
    (dx dy : Int) : List PieceInEffect :=
  rayLoop C fen dx dy 16 (fileCode startSquare + dx) (rankNum startSquare + dy) []

/-- The in-bounds squares along a ray (walk order), for stating what the
"first two occupied squares" of a ray are. -/
def raySquares (dx dy : Int) : Nat → Int → Int → List SquareId
  | 0, _, _ => []
  | fuel + 1, x, y =>
    if inBoard x y then mkSquare x y :: raySquares dx dy fuel (x + dx) (y + dy)
    else []

/-- The occupied squares along a ray from `startSquare` in direction (dx,dy),
in walk order. -/
def occupiedAlong (C : Collab) (fen : Fen) (startSquare : SquareId)
    (dx dy : Int) : List SquareId :=
  (raySquares dx dy 16 (fileCode startSquare + dx) (rankNum startSquare + dy)).filter
    (fun s => (C.get fen s).isSome)

/-- `moves.find(m => { const c = new Chess(prevFen); const res = c.move(m);
return res && c.fen() === fen; })` (src/src/utils.ts lines 126-133). -/
def findMatched (C : Collab) (prev : Fen) (fen : Fen) : Option VMove :=
  (C.movesAll prev).find? (fun m =>
    match C.applyFen prev m with
    | some f => f == fen
    | none => false)

/-- The flag/notation-driven type chain of src/src/utils.ts lines 136-143. -/
def typeFromMatched (m : VMove) : MoveType :=
  let t :=
    if m.flags.contains 'p' then MoveType.promotion
    else if m.flags.contains 'c' || m.captured.isSome then MoveType.capture
    else if m.flags.contains 'e' then MoveType.enPassant
    else if m.flags.contains 'k' || m.flags.contains 'q' then MoveType.castling
    else MoveType.normal
  let t := if m.san.contains '+' then MoveType.check else t
  if m.san.contains '#' then MoveType.checkmate else t

/-- The captured-piece block of src/src/utils.ts lines 145-155: resolve the
matched move's destination on the previous snapshot at depth 0 and relabel
its square and kind from the occupant found there. -/
def capturedOf (C : Collab) (prev : Fen) (m : VMove) : Option PieceInEffect :=
  match C.get prev m.toSq with
  | none => none
  | some captured =>
    match buildPieceInEffect C m.toSq prev 0 with
    | none => none
    | some e => some (.mk m.toSq captured.type e.color e.attackers e.defenders)

/-- The defense-balance chain of src/src/utils.ts lines 163-177. -/
def defenseOf (numAttackers numDefenders : Nat) : Defense :=
  if numDefenders = 0 ∧ 0 < numAttackers then .undefended
  else if 0 < numDefenders ∧ numAttackers = 0 then .overdefended
  else if 0 < numDefenders ∧ 0 < numAttackers then
    if numAttackers < numDefenders then .overdefended
    else if numDefenders < numAttackers then .underdefended
    else .defended
  else .defended

/-- The fianchetto test of src/src/utils.ts lines 181-196. -/
def fianchettoCond (C : Collab) (fen : Fen) (pieceSquare : SquareId)
    (piece : Piece) : Bool :=
  if piece.type = 'b' ∧ (pieceSquare = "b2" ∨ pieceSquare = "g2" ∨
      pieceSquare = "b7" ∨ pieceSquare = "g7") then
    let adder : Int := if piece.color = Side.w then 1 else -1
    let file := String.mk [charAt pieceSquare 0]
    let rank := digitOf (charAt pieceSquare 1)
    let isFianchettoPawnPresent : Option Piece → Bool := fun pawn =>
      match pawn with
      | some pz => decide (pz.type = 'p' ∧ pz.color = piece.color)
      | none => false
    isFianchettoPawnPresent (C.get fen (file ++ toString (rank + adder))) ||
      isFianchettoPawnPresent (C.get fen (file ++ toString (rank + adder * 2)))
  else false

/-- The 64 squares in the scan order of src/src/utils.ts lines 202-206:
`file = 'abcdefgh'[i % 8], rank = i / 8 + 1`. -/
def squareAt (i : Nat) : SquareId :=
  String.mk [(['a','b','c','d','e','f','g','h'] : List Char).getD (i % 8) ' '] ++
    toString (i / 8 + 1)

def squares64 : List SquareId := (List.range 64).map squareAt

/-- The defend half of the board scan (src/src/utils.ts lines 199-216): a
scanned piece is collected when one of its defenders sits on the analyzed
square and it is not a king. -/
def defendsOf (C : Collab) (fen : Fen) (pieceSquare : SquareId) :
    List PieceInEffect :=
  squares64.filterMap (fun sq =>
    if sq = pieceSquare then none
    else
      match C.get fen sq with
      | none => none
      | some _ =>
        match buildPieceInEffect C sq fen 1 with
        | none => none
        | some eff =>
          if (eff.defenders.any (fun d => d.atSq == pieceSquare)) &&
              !decide (eff.name = 'k') then some eff
          else none)

/-- The hanging half of the board scan (src/src/utils.ts lines 218-220),
restricted to one side's output list `hangingPieces[color]`. -/
def hangingOf (C : Collab) (fen : Fen) (pieceSquare : SquareId) (side : Side) :
    List PieceInEffect :=
  squares64.filterMap (fun sq =>
    if sq = pieceSquare then none
    else
      match C.get fen sq with
      | none => none
      | some p =>
        if p.color = side then
          match buildPieceInEffect C sq fen 1 with
          | none => none
          | some eff =>
            if 0 < eff.attackers.length ∧ eff.defenders.length = 0 then some eff
            else none
        else none)

/-- The attack scan of src/src/utils.ts lines 224-242: legal destinations of
the queried piece with the side-to-move forced to the piece's color; occupied
destinations holding enemy pieces are resolved at depth 0. -/
def attacksOf (C : Collab) (fen : Fen) (pieceSquare : SquareId)
    (pieceColor : Side) : List PieceInEffect :=
  (C.movesFrom (C.setTurn fen pieceColor) pieceSquare).filterMap (fun mv =>
    match C.get fen mv.toSq with
    | none => none
    | some targetPiece =>
      match buildPieceInEffect C mv.toSq fen 0 with
      | none => none
      | some targetEffect =>
        if targetPiece.color = pieceColor then none else some targetEffect)

/-- `ALL_8_DIRECTIONS` (src/src/utils.ts lines 255-258). -/
def ALL_8_DIRECTIONS : List (Int × Int) :=
  [(0, 1), (0, -1), (1, 0), (-1, 0), (1, 1), (1, -1), (-1, 1), (-1, -1)]

/-- `DIRECTIONS` keyed by piece kind (src/src/utils.ts lines 260-264). -/
def DIRECTIONS : Char → List (Int × Int)
  | 'b' => ALL_8_DIRECTIONS.drop 4
  | 'r' => ALL_8_DIRECTIONS.take 4
  | 'q' => ALL_8_DIRECTIONS
  | _ => []

/-- The per-direction pin/skewer finding (body of the loop at
src/src/utils.ts lines 266-289). -/
def rayFinding (C : Collab) (fen : Fen) (pieceSquare : SquareId)
    (pieceColor : Side) (defense : Defense) (d : Int × Int) :
    Option TacticalMove :=
  match getPiecesAlongRay C fen pieceSquare d.1 d.2 with
  | firstPiece :: secondPiece :: _ =>
    if ¬(firstPiece.color = pieceColor) ∧ ¬(secondPiece.color = pieceColor) then
      let tacticName : TacticKind :=
        if PIECE_VALS secondPiece.name < PIECE_VALS firstPiece.name ∧
            (defense = .defended ∨ defense = .overdefended) then .skewer
        else .pin
      some ⟨tacticName, [firstPiece, secondPiece]⟩
    else none
  | _ => none

/-- The pin/skewer part of the tactics list (src/src/utils.ts lines 253-290). -/
def pinSkewerOf (C : Collab) (fen : Fen) (pieceSquare : SquareId)
    (pieceType : Char) (pieceColor : Side) (defense : Defense) :
    List TacticalMove :=
  if pieceType = 'b' ∨ pieceType = 'r' ∨ pieceType = 'q' then
    (DIRECTIONS pieceType).filterMap (rayFinding C fen pieceSquare pieceColor defense)
  else []

/-- The matched prior move (src/src/utils.ts lines 124-133): absent when no
previous snapshot was supplied. -/
def matchedOf (C : Collab) (prevFen : Option Fen) (fen : Fen) : Option VMove :=
  match prevFen with
  | none => none
  | some prev => findMatched C prev fen

/-- The type after the matched-move classification (src/src/utils.ts lines
119, 135-143): `'normal'` when nothing matched. -/
def baseType (C : Collab) (prevFen : Option Fen) (fen : Fen) : MoveType :=
  match matchedOf C prevFen fen with
  | none => MoveType.normal
  | some m => typeFromMatched m

/-- The captured-piece result of the classification block (src/src/utils.ts
lines 122, 145-155). -/
def capturedPieceOf (C : Collab) (prevFen : Option Fen) (fen : Fen) :
    Option PieceInEffect :=
  match prevFen, matchedOf C prevFen fen with
  | some prev, some m => capturedOf C prev m
  | _, _ => none

/-- The type after the stalemate override (src/src/utils.ts line 158). -/
def typeAfterStalemate (C : Collab) (prevFen : Option Fen) (fen : Fen) :
    MoveType :=
  if C.isStalemate fen then MoveType.stalemate else baseType C prevFen fen

/-- `moveInfo(pieceSquare, fen, prevFen)` (src/src/utils.ts lines 113-302). -/
def moveInfo (C : Collab) (pieceSquare : SquareId) (fen : Fen)
    (prevFen : Option Fen) : Option MoveEffect :=
  match C.get fen pieceSquare with
  | none => none
  | some piece =>
    match buildPieceInEffect C pieceSquare fen 1 with
    | none => none
    | some pieceEffect =>
      let numAttackers := pieceEffect.attackers.length
      let numDefenders := pieceEffect.defenders.length
      let type2 :=
        if 0 < numAttackers then MoveType.attacking
        else typeAfterStalemate C prevFen fen
      let defense := defenseOf numAttackers numDefenders
      let type3 :=
        if fianchettoCond C fen pieceSquare piece then MoveType.fianchetto
        else type2
      let attacks := attacksOf C fen pieceSquare piece.color
      some
        { piece := pieceEffect
          capturedPiece := capturedPieceOf C prevFen fen
          tactics := (if 1 < attacks.length then [⟨.fork, attacks⟩] else []) ++
            pinSkewerOf C fen pieceSquare piece.type piece.color defense
          attacks := attacks
          defends := defendsOf C fen pieceSquare
          type := type3
          defense := defense
          hangingW := hangingOf C fen pieceSquare Side.w
          hangingB := hangingOf C fen pieceSquare Side.b }

/-- Attacker count of the queried piece's depth-1 resolution (the
`numAttackers` of src/src/utils.ts line 165). -/
def topAttackerCount (C : Collab) (fen : Fen) (square : SquareId) : Nat :=
  match buildPieceInEffect C square fen 1 with
  | some e => e.attackers.length
  | none => 0

/-- The per-side material record of the BetterChess class. -/
structure PieceRecord where
  r : Int
  n : Int
  b : Int
  q : Int
  p : Int
deriving DecidableEq

/-- `material[side][kind]--` on the tracked kinds; other keys name no record
field (in JS they would create a fresh NaN property, leaving r/n/b/q/p as-is). -/
def PieceRecord.dec (m : PieceRecord) : Char → PieceRecord
  | 'r' => { m with r := m.r - 1 }
  | 'n' => { m with n := m.n - 1 }
  | 'b' => { m with b := m.b - 1 }
  | 'q' => { m with q := m.q - 1 }
  | 'p' => { m with p := m.p - 1 }
  | _ => m

/-- `material[side][kind]++`, same field discipline as `PieceRecord.dec`. -/
def PieceRecord.inc (m : PieceRecord) : Char → PieceRecord
  | 'r' => { m with r := m.r + 1 }
  | 'n' => { m with n := m.n + 1 }
  | 'b' => { m with b := m.b + 1 }
  | 'q' => { m with q := m.q + 1 }
  | 'p' => { m with p := m.p + 1 }
  | _ => m

/-- Read a tracked kind's count (0 for keys that name no record field). -/
def PieceRecord.kindCount (m : PieceRecord) (k : Char) : Int :=
  if k = 'r' then m.r
  else if k = 'n' then m.n
  else if k = 'b' then m.b
  else if k = 'q' then m.q
  else if k = 'p' then m.p
  else 0

/-- The mutable state of a BetterChess instance: the underlying position,
the material ledger, and the recorded verbose history. -/
structure BCState where
  fen : Fen
  materialW : PieceRecord
  materialB : PieceRecord
  history : List MoveRes

def BCState.matFor (st : BCState) : Side → PieceRecord
  | .w => st.materialW
  | .b => st.materialB

def BCState.setFor (st : BCState) (s : Side) (m : PieceRecord) : BCState :=
  match s with
  | .w => { st with materialW := m }
  | .b => { st with materialB := m }

/-- One material-ledger entry. -/
def matAt (st : BCState) (s : Side) (k : Char) : Int :=
  (st.matFor s).kindCount k

/-- `moveAndAnalyze` (the BetterChess class): apply the move, analyze the
destination square against the before/after snapshots, and update the ledger
from the analysis's capturedPiece and type.  The state is threaded
explicitly; a failed `super.move` leaves the state unchanged. -/
def moveAndAnalyze (C : Collab) (st : BCState) (arg : String) :
    BCState × Option MoveEffect :=
  match C.doMove st.fen arg with
  | none => (st, none)
  | some mv =>
    let st1 : BCState := { st with fen := mv.after, history := st.history ++ [mv] }
    let turn := C.turnOf mv.after
    let analysis := moveInfo C mv.toSq mv.after (some mv.before)
    let st2 :=
      match analysis with
      | some a =>
        match a.capturedPiece with
        | some cp => st1.setFor turn ((st1.matFor turn).dec cp.name)
        | none => st1
      | none => st1
    let st3 :=
      match analysis with
      | some a =>
        if a.type = MoveType.promotion then
          match mv.promotion with
          | some promotedPiece =>
            let side := if turn = Side.w then Side.b else Side.w
            st2.setFor side ((st2.matFor side).inc promotedPiece)
          | none => st2
        else st2
      | none => st2
    (st3, analysis)

/-- `getAnalysisAt(square)` (the BetterChess class): read-only analysis of a
square on the current position, with the second-to-last history entry's
resulting position as the previous snapshot (`lastMove?.after || undefined`;
the JS `||` also maps an empty-string fen to undefined). -/
def getAnalysisAt (C : Collab) (st : BCState) (square : SquareId) :
    BCState × Option MoveEffect :=
  let history := st.history
  let lastMove :=
    if history.length < 2 then none else history[history.length - 2]?
  let prevFen : Option Fen :=
    match lastMove with
    | some lm => if lm.after = "" then none else some lm.after
    | none => none
  (st, moveInfo C square st.fen prevFen)

/-! ### Basic lemmas about the resolver -/

theorem PieceInEffect.atSq_mk (a : SquareId) (n : Char) (c : Side)
    (atk dfn : List PieceInEffect) :
    (PieceInEffect.mk a n c atk dfn).atSq = a := rfl

theorem PieceInEffect.name_mk (a : SquareId) (n : Char) (c : Side)
    (atk dfn : List PieceInEffect) :
    (PieceInEffect.mk a n c atk dfn).name = n := rfl

theorem PieceInEffect.color_mk (a : SquareId) (n : Char) (c : Side)
    (atk dfn : List PieceInEffect) :
    (PieceInEffect.mk a n c atk dfn).color = c := rfl

theorem PieceInEffect.attackers_mk (a : SquareId) (n : Char) (c : Side)
    (atk dfn : List PieceInEffect) :
    (PieceInEffect.mk a n c atk dfn).attackers = atk := rfl

theorem PieceInEffect.defenders_mk (a : SquareId) (n : Char) (c : Side)
    (atk dfn : List PieceInEffect) :
    (PieceInEffect.mk a n c atk dfn).defenders = dfn := rfl

theorem levelPairs_eq_nil (C : Collab) (fen : Fen) (s : SquareId)
    (sub : SquareId → Option PieceInEffect) (hsub : ∀ fr, sub fr = none) :
    levelPairs C fen s sub = [] := by
  apply List.filterMap_eq_nil_iff.mpr
  intro a _
  cases hg : C.get fen a with
  | none => simp [hg]
  | some p => simp [hg, hsub a]

/-- Depth 0 forces the attacker/defender lists empty. -/
theorem build_zero_eq (C : Collab) (s : SquareId) (fen : Fen) (p : Piece)
    (h : C.get fen s = some p) :
    buildPieceInEffect C s fen 0 = some (.mk s p.type p.color [] []) := by
  simp only [buildPieceInEffect, buildLevel, h]
  rw [levelPairs_eq_nil]
  · rfl
  · intro fr; rfl

/-- The depth-one resolver is one level whose recursive calls run at depth 0. -/
theorem build_one (C : Collab) (s : SquareId) (fen : Fen) :
    buildPieceInEffect C s fen 1 =
      buildLevel C s fen (fun fr => buildPieceInEffect C fr fen 0) := rfl

/-- The (occupant-color, descriptor) pairs accumulated by the top-level
resolver's loop. -/
def subPairs (C : Collab) (fen : Fen) (s : SquareId) :
    List (Side × PieceInEffect) :=
  levelPairs C fen s (fun fr => buildPieceInEffect C fr fen 0)

theorem build_one_eq (C : Collab) (s : SquareId) (fen : Fen) (p : Piece)
    (h : C.get fen s = some p) :
    buildPieceInEffect C s fen 1 = some (.mk s p.type p.color
      (((subPairs C fen s).filter (fun z => !decide (z.1 = p.color))).map Prod.snd)
      (((subPairs C fen s).filter (fun z => decide (z.1 = p.color))).map Prod.snd)) := by
  rw [build_one]
  simp only [buildLevel, subPairs, h]

theorem buildLevel_inv {C : Collab} {s : SquareId} {fen : Fen}
    {sub : SquareId → Option PieceInEffect} {e : PieceInEffect}
    (h : buildLevel C s fen sub = some e) :
    ∃ p, C.get fen s = some p ∧ e.atSq = s ∧ e.name = p.type ∧
      e.color = p.color ∧
      e.attackers = ((levelPairs C fen s sub).filter
        (fun z => !decide (z.1 = p.color))).map Prod.snd ∧
      e.defenders = ((levelPairs C fen s sub).filter
        (fun z => decide (z.1 = p.color))).map Prod.snd := by
  unfold buildLevel at h
  cases hg : C.get fen s with
  | none => rw [hg] at h; exact absurd h (by simp)
  | some p =>
    rw [hg] at h
    refine ⟨p, rfl, ?_⟩
    injection h with h'
    subst h'
    simp [PieceInEffect.atSq_mk, PieceInEffect.name_mk, PieceInEffect.color_mk,
      PieceInEffect.attackers_mk, PieceInEffect.defenders_mk]

theorem build_inv {C : Collab} {s : SquareId} {fen : Fen} {d : Nat}
    {e : PieceInEffect} (h : buildPieceInEffect C s fen d = some e) :
    ∃ p, C.get fen s = some p ∧ e.atSq = s ∧ e.name = p.type ∧
      e.color = p.color :=
  match buildLevel_inv h with
  | ⟨p, h1, h2, h3, h4, _, _⟩ => ⟨p, h1, h2, h3, h4⟩

/-- The master equation for `moveInfo` on an occupied square. -/
theorem moveInfo_eq {C : Collab} {q : SquareId} {fen : Fen}
    {prevFen : Option Fen} {piece : Piece} {pe : PieceInEffect}
    (hq : C.get fen q = some piece)
    (hb : buildPieceInEffect C q fen 1 = some pe) :
    moveInfo C q fen prevFen = some
      { piece := pe
        capturedPiece := capturedPieceOf C prevFen fen
        tactics := (if 1 < (attacksOf C fen q piece.color).length then
            [⟨.fork, attacksOf C fen q piece.color⟩] else []) ++
          pinSkewerOf C fen q piece.type piece.color
            (defenseOf pe.attackers.length pe.defenders.length)
        attacks := attacksOf C fen q piece.color
        defends := defendsOf C fen q
        type :=
          if fianchettoCond C fen q piece then MoveType.fianchetto
          else if 0 < pe.attackers.length then MoveType.attacking
          else typeAfterStalemate C prevFen fen
        defense := defenseOf pe.attackers.length pe.defenders.length
        hangingW := hangingOf C fen q Side.w
        hangingB := hangingOf C fen q Side.b } := by
  simp only [moveInfo, hq, hb]

/-- On an occupied square `moveInfo` always answers. -/
theorem moveInfo_isSome {C : Collab} {q : SquareId} {fen : Fen}
    {prevFen : Option Fen} {piece : Piece} (hq : C.get fen q = some piece) :
    (moveInfo C q fen prevFen).isSome := by
  rw [moveInfo_eq hq (build_one_eq C q fen piece hq)]
  rfl

/-! ### A concrete stalemate position: 7k/7P/7K/8/8/8/8/8 b - - (black to
move has no legal move and is not in check; the white pawn h7 is attacked by
the black king h8 and defended by the white king h6). -/

def stalFen : Fen := "7k/7P/7K/8/8/8/8/8 b - - 0 1"

def stalC : Collab where
  get := fun _ sq =>
    if sq = "h8" then some ⟨'k', Side.b⟩
    else if sq = "h7" then some ⟨'p', Side.w⟩
    else if sq = "h6" then some ⟨'k', Side.w⟩
    else none
  attackers := fun _ sq side =>
    if sq = "h7" then
      match side with
      | .w => ["h6"]
      | .b => ["h8"]
    else []
  movesAll := fun _ => []
  movesFrom := fun _ sq =>
    if sq = "h6" then
      [⟨"g5", ['n'], "Kg5", none, none⟩, ⟨"g6", ['n'], "Kg6", none, none⟩,
       ⟨"h5", ['n'], "Kh5", none, none⟩]
    else []
  applyFen := fun _ _ => none
  isStalemate := fun _ => true
  setTurn := fun f _ => f
  doMove := fun _ _ => none
  turnOf := fun _ => Side.b

/-- C1 counterexample: in the stalemate position above, querying the white
pawn h7 (which has an attacker, the black king) returns moveType
`attacking`, not `stalemate` — the attacking upgrade at utils.ts line 168
overwrites the stalemate tag set at line 158, and fianchetto is not
involved. -/
theorem C1_counterexample :
    stalC.isStalemate stalFen = true ∧
    stalC.get stalFen "h7" = some ⟨'p', Side.w⟩ ∧
    fianchettoCond stalC stalFen "h7" ⟨'p', Side.w⟩ = false ∧
    (moveInfo stalC "h7" stalFen none).map MoveEffect.type =
      some MoveType.attacking := by
  refine ⟨rfl, rfl, rfl, ?_⟩
  rfl

/-- C1 (amended): on a stalemate snapshot the returned type is `attacking`
whenever the queried piece has at least one attacker, and `stalemate` only
when it has none (the fianchetto refinement, excluded here, could still
override either). -/
theorem C1_stalemate_vs_attacking {C : Collab} {fen : Fen} {q : SquareId}
    {prevFen : Option Fen} {piece : Piece}
    (hq : C.get fen q = some piece)
    (hst : C.isStalemate fen = true)
    (hfi : fianchettoCond C fen q piece = false) :
    (moveInfo C q fen prevFen).map MoveEffect.type =
      some (if 0 < topAttackerCount C fen q then MoveType.attacking
        else MoveType.stalemate) := by
  have hb := build_one_eq C q fen piece hq
  rw [moveInfo_eq hq hb]
  simp [hfi, topAttackerCount, hb, typeAfterStalemate, hst]

/-- Witness for the amended C1: the white king h6 in the stalemate position
has no attackers, so the query returns `stalemate`. -/
theorem C1_witness :
    stalC.get stalFen "h6" = some ⟨'k', Side.w⟩ ∧
    stalC.isStalemate stalFen = true ∧
    fianchettoCond stalC stalFen "h6" ⟨'k', Side.w⟩ = false ∧
    (moveInfo stalC "h6" stalFen none).map MoveEffect.type =
      some (if 0 < topAttackerCount stalC stalFen "h6" then MoveType.attacking
        else MoveType.stalemate) :=
  ⟨rfl, rfl, rfl, C1_stalemate_vs_attacking rfl rfl rfl⟩

/-! ### Fork findings (claim C4) -/

/-- Pin/skewer findings never carry the `fork` kind. -/
theorem pinSkewerOf_no_fork {C : Collab} {fen : Fen} {q : SquareId}
    {k : Char} {c : Side} {d : Defense} :
    ∀ t ∈ pinSkewerOf C fen q k c d, ¬(t.tactic = TacticKind.fork) := by
  intro t ht
  unfold pinSkewerOf at ht
  split at ht
  · obtain ⟨dir, _, hdir⟩ := List.mem_filterMap.mp ht
    unfold rayFinding at hdir
    split at hdir
    · split at hdir
      · injection hdir with hdir'
        subst hdir'
        split
        · intro hcontra; cases hcontra
        · intro hcontra; cases hcontra
      · cases hdir
    · cases hdir
  · cases ht

/-- C4: the result contains exactly one `fork` finding, whose targets are
exactly the full attacks list, iff the attacks list has at least 2 entries;
with 0 or 1 attacked pieces there is no fork finding. -/
theorem C4_fork {C : Collab} {fen : Fen} {q : SquareId} {prevFen : Option Fen}
    {piece : Piece} {eff : MoveEffect}
    (hq : C.get fen q = some piece)
    (hm : moveInfo C q fen prevFen = some eff) :
    eff.tactics.filter (fun t => decide (t.tactic = TacticKind.fork)) =
      if 2 ≤ eff.attacks.length then [⟨TacticKind.fork, eff.attacks⟩]
      else [] := by
  have hb := build_one_eq C q fen piece hq
  rw [moveInfo_eq hq hb] at hm
  injection hm with hm'
  subst hm'
  dsimp only
  rw [List.filter_append]
  have hP : ∀ d : Defense, (pinSkewerOf C fen q piece.type piece.color
      d).filter (fun t => decide (t.tactic = TacticKind.fork)) = [] := by
    intro d
    apply List.filter_eq_nil_iff.mpr
    intro t ht
    simpa using pinSkewerOf_no_fork t ht
  rw [hP]
  by_cases h2 : 1 < (attacksOf C fen q piece.color).length
  · rw [if_pos h2, if_pos (by omega : 2 ≤ (attacksOf C fen q piece.color).length)]
    simp
  · rw [if_neg h2, if_neg (by omega : ¬(2 ≤ (attacksOf C fen q piece.color).length))]
    simp

/-! A concrete fork: white knight b1, black pawns a3 and c3
(8/8/8/8/8/p1p5/8/1N6 w - -). -/

def forkFen : Fen := "8/8/8/8/8/p1p5/8/1N6 w - - 0 1"

def forkC : Collab where
  get := fun _ sq =>
    if sq = "b1" then some ⟨'n', Side.w⟩
    else if sq = "a3" then some ⟨'p', Side.b⟩
    else if sq = "c3" then some ⟨'p', Side.b⟩
    else none
  attackers := fun _ sq side =>
    if sq = "a3" ∨ sq = "c3" then
      match side with
      | .w => ["b1"]
      | .b => []
    else []
  movesAll := fun _ => []
  movesFrom := fun _ sq =>
    if sq = "b1" then
      [⟨"a3", ['c'], "Nxa3", some 'p', none⟩,
       ⟨"c3", ['c'], "Nxc3", some 'p', none⟩,
       ⟨"d2", ['n'], "Nd2", none, none⟩]
    else []
  applyFen := fun _ _ => none
  isStalemate := fun _ => false
  setTurn := fun f _ => f
  doMove := fun _ _ => none
  turnOf := fun _ => Side.w

def forkEff : MoveEffect := (moveInfo forkC "b1" forkFen none).getD default

/-- Witness for C4: the knight on b1 attacks both black pawns, producing one
fork finding whose targets are the whole attacks list. -/
theorem C4_witness :
    forkC.get forkFen "b1" = some ⟨'n', Side.w⟩ ∧
    moveInfo forkC "b1" forkFen none = some forkEff ∧
    forkEff.tactics.filter (fun t => decide (t.tactic = TacticKind.fork)) =
      if 2 ≤ forkEff.attacks.length then [⟨TacticKind.fork, forkEff.attacks⟩]
      else [] :=
  ⟨rfl, rfl, @C4_fork forkC forkFen "b1" none ⟨'n', Side.w⟩ forkEff rfl rfl⟩

/-! ### Depth invariant (claim C6) -/

theorem build_zero_shape {C : Collab} {s : SquareId} {fen : Fen}
    {e : PieceInEffect} (h : buildPieceInEffect C s fen 0 = some e) :
    e.attackers = [] ∧ e.defenders = [] := by
  obtain ⟨p, hg, -, -, -⟩ := build_inv h
  rw [build_zero_eq C s fen p hg] at h
  injection h with h'
  subst h'
  exact ⟨rfl, rfl⟩

theorem levelPairs_mem {C : Collab} {fen : Fen} {s : SquareId}
    {sub : SquareId → Option PieceInEffect} {z : Side × PieceInEffect}
    (hz : z ∈ levelPairs C fen s sub) :
    ∃ fr ∈ C.attackers fen s Side.w ++ C.attackers fen s Side.b,
      ∃ p, C.get fen fr = some p ∧ z.1 = p.color ∧ sub fr = some z.2 := by
  unfold levelPairs at hz
  obtain ⟨fr, hfr, heq⟩ := List.mem_filterMap.mp hz
  refine ⟨fr, hfr, ?_⟩
  split at heq
  · cases heq
  · rename_i p hg
    split at heq
    · cases heq
    · rename_i s0 hs
      injection heq with heq'
      subst heq'
      exact ⟨p, hg, rfl, hs⟩

/-- All attacker/defender entries of any resolution are depth-0 resolutions,
hence have empty lists themselves. -/
theorem build_children {C : Collab} {s : SquareId} {fen : Fen} {d : Nat}
    {e : PieceInEffect} (h : buildPieceInEffect C s fen d = some e) :
    ∀ c ∈ e.attackers ++ e.defenders, c.attackers = [] ∧ c.defenders = [] := by
  intro c hc
  obtain ⟨p, hg, -, -, -, ha, hd'⟩ := buildLevel_inv h
  have hzmem : ∃ z ∈ levelPairs C fen s (fun fr =>
      match d with
      | 0 => none
      | _ + 1 => buildLevel C fr fen (fun _ => none)), z.2 = c := by
    rcases List.mem_append.mp hc with hca | hcd
    · rw [ha] at hca
      obtain ⟨z, hz, hzc⟩ := List.mem_map.mp hca
      exact ⟨z, (List.mem_filter.mp hz).1, hzc⟩
    · rw [hd'] at hcd
      obtain ⟨z, hz, hzc⟩ := List.mem_map.mp hcd
      exact ⟨z, (List.mem_filter.mp hz).1, hzc⟩
  obtain ⟨z, hz, hzc⟩ := hzmem
  obtain ⟨fr, -, p2, -, -, hsub⟩ := levelPairs_mem hz
  cases d with
  | zero => simp at hsub
  | succ d' =>
    have hb0 : buildPieceInEffect C fr fen 0 = some z.2 := hsub
    subst hzc
    exact build_zero_shape hb0

theorem capturedOf_shape {C : Collab} {prev : Fen} {m : VMove}
    {cp : PieceInEffect} (h : capturedOf C prev m = some cp) :
    cp.attackers = [] ∧ cp.defenders = [] := by
  unfold capturedOf at h
  split at h
  · cases h
  · rename_i captured hg
    split at h
    · cases h
    · rename_i e he
      injection h with h'
      subst h'
      simp only [PieceInEffect.attackers_mk, PieceInEffect.defenders_mk]
      exact build_zero_shape he

theorem capturedPieceOf_shape {C : Collab} {prevFen : Option Fen} {fen : Fen}
    {cp : PieceInEffect} (h : capturedPieceOf C prevFen fen = some cp) :
    cp.attackers = [] ∧ cp.defenders = [] := by
  unfold capturedPieceOf at h
  split at h
  · exact capturedOf_shape h
  · cases h

theorem attacksOf_shape {C : Collab} {fen : Fen} {q : SquareId} {c : Side} :
    ∀ e ∈ attacksOf C fen q c, e.attackers = [] ∧ e.defenders = [] := by
  intro e he
  unfold attacksOf at he
  obtain ⟨mv, -, heq⟩ := List.mem_filterMap.mp he
  split at heq
  · cases heq
  · rename_i tp hg
    split at heq
    · cases heq
    · rename_i te hte
      split at heq
      · cases heq
      · injection heq with heq'
        subst heq'
        exact build_zero_shape hte

theorem defendsOf_from_build {C : Collab} {fen : Fen} {q : SquareId} :
    ∀ e ∈ defendsOf C fen q, ∃ s, buildPieceInEffect C s fen 1 = some e := by
  intro e he
  unfold defendsOf at he
  obtain ⟨sq, -, heq⟩ := List.mem_filterMap.mp he
  split at heq
  · cases heq
  · split at heq
    · cases heq
    · split at heq
      · cases heq
      · rename_i eff heff
        split at heq
        · injection heq with heq'
          subst heq'
          exact ⟨sq, heff⟩
        · cases heq

theorem hangingOf_from_build {C : Collab} {fen : Fen} {q : SquareId}
    {side : Side} :
    ∀ e ∈ hangingOf C fen q side, ∃ s, buildPieceInEffect C s fen 1 = some e := by
  intro e he
  unfold hangingOf at he
  obtain ⟨sq, -, heq⟩ := List.mem_filterMap.mp he
  split at heq
  · cases heq
  · split at heq
    · cases heq
    · split at heq
      · split at heq
        · cases heq
        · rename_i eff heff
          split at heq
          · injection heq with heq'
            subst heq'
            exact ⟨sq, heff⟩
          · cases heq
      · cases heq

theorem rayLoop_shape {C : Collab} {fen : Fen} {dx dy : Int} :
    ∀ (fuel : Nat) (x y : Int) (acc : List PieceInEffect),
      (∀ c ∈ acc, c.attackers = [] ∧ c.defenders = []) →
      ∀ c ∈ rayLoop C fen dx dy fuel x y acc,
        c.attackers = [] ∧ c.defenders = [] := by
  intro fuel
  induction fuel with
  | zero => intro x y acc hacc c hc; exact hacc c hc
  | succ fuel ih =>
    intro x y acc hacc c hc
    rw [rayLoop] at hc
    split at hc
    · dsimp only at hc
      split at hc
      · rename_i hg
        split at hc
        · exact hacc c hc
        · rename_i pe hpe
          have hacc2 : ∀ c ∈ acc ++ [pe], c.attackers = [] ∧ c.defenders = [] := by
            intro c2 hc2
            rcases List.mem_append.mp hc2 with h2 | h2
            · exact hacc c2 h2
            · rcases List.mem_singleton.mp h2 with rfl
              exact build_zero_shape hpe
          split at hc
          · exact hacc2 c hc
          · exact ih _ _ _ hacc2 c hc
      · exact ih _ _ _ hacc c hc
    · exact hacc c hc

theorem getPiecesAlongRay_shape {C : Collab} {fen : Fen} {q : SquareId}
    {dx dy : Int} :
    ∀ c ∈ getPiecesAlongRay C fen q dx dy,
      c.attackers = [] ∧ c.defenders = [] := by
  intro c hc
  exact rayLoop_shape 16 _ _ [] (by intro c2 hc2; cases hc2) c hc

theorem pinSkewerOf_targets_shape {C : Collab} {fen : Fen} {q : SquareId}
    {k : Char} {col : Side} {d : Defense} :
    ∀ t ∈ pinSkewerOf C fen q k col d, ∀ e ∈ t.targets,
      e.attackers = [] ∧ e.defenders = [] := by
  intro t ht e he
  unfold pinSkewerOf at ht
  split at ht
  · obtain ⟨dir, -, hdir⟩ := List.mem_filterMap.mp ht
    unfold rayFinding at hdir
    split at hdir
    · rename_i f s rest hray
      split at hdir
      · injection hdir with hdir'
        subst hdir'
        have hf : f ∈ getPiecesAlongRay C fen q dir.1 dir.2 := by
          rw [hray]; exact List.mem_cons_self _ _
        have hs2 : s ∈ getPiecesAlongRay C fen q dir.1 dir.2 := by
          rw [hray]; exact List.mem_cons_of_mem _ (List.mem_cons_self _ _)
        rcases List.mem_cons.mp he with heq | he2
        · rw [heq]; exact getPiecesAlongRay_shape f hf
        · rw [List.mem_singleton.mp he2]
          exact getPiecesAlongRay_shape s hs2
      · cases hdir
    · cases hdir
  · cases ht

/-- The depth invariant of `MoveEffect` values: every descriptor nested
inside another descriptor's attacker/defender list has its own lists empty
(spec §3, §8). -/
def depthInvariant (eff : MoveEffect) : Prop :=
  (∀ c ∈ eff.piece.attackers ++ eff.piece.defenders,
    c.attackers = [] ∧ c.defenders = []) ∧
  (∀ cp, eff.capturedPiece = some cp →
    ∀ c ∈ cp.attackers ++ cp.defenders, c.attackers = [] ∧ c.defenders = []) ∧
  (∀ e ∈ eff.attacks, ∀ c ∈ e.attackers ++ e.defenders,
    c.attackers = [] ∧ c.defenders = []) ∧
  (∀ e ∈ eff.defends, ∀ c ∈ e.attackers ++ e.defenders,
    c.attackers = [] ∧ c.defenders = []) ∧
  (∀ t ∈ eff.tactics, ∀ e ∈ t.targets, ∀ c ∈ e.attackers ++ e.defenders,
    c.attackers = [] ∧ c.defenders = []) ∧
  (∀ e ∈ eff.hangingW ++ eff.hangingB, ∀ c ∈ e.attackers ++ e.defenders,
    c.attackers = [] ∧ c.defenders = [])

/-- C6: every MoveEffect produced by the orchestrator satisfies the depth
invariant — resolution below the top level always uses depth 0, which
forces nested attacker/defender lists empty. -/
theorem C6_depth_invariant {C : Collab} {fen : Fen} {q : SquareId}
    {prevFen : Option Fen} {piece : Piece} {eff : MoveEffect}
    (hq : C.get fen q = some piece)
    (hm : moveInfo C q fen prevFen = some eff) :
    depthInvariant eff := by
  have hb := build_one_eq C q fen piece hq
  rw [moveInfo_eq hq hb] at hm
  injection hm with hm'
  subst hm'
  refine ⟨build_children hb, ?_, ?_, ?_, ?_, ?_⟩
  · intro cp hcp c hc
    have h1 := capturedPieceOf_shape hcp
    rw [h1.1, h1.2] at hc
    cases hc
  · intro e he
    have := attacksOf_shape e he
    intro c hc
    rw [this.1, this.2] at hc
    cases hc
  · intro e he
    obtain ⟨s, hs⟩ := defendsOf_from_build e he
    exact build_children hs
  · intro t ht
    dsimp only at ht
    rcases List.mem_append.mp ht with htf | htp
    · intro e he c hc
      have he' : e ∈ attacksOf C fen q piece.color := by
        split at htf
        · rcases List.mem_singleton.mp htf with rfl
          exact he
        · cases htf
      have := attacksOf_shape e he'
      rw [this.1, this.2] at hc
      cases hc
    · intro e he
      have hsh := pinSkewerOf_targets_shape t htp e he
      intro c hc
      rw [hsh.1, hsh.2] at hc
      cases hc
  · intro e he
    rcases List.mem_append.mp he with h1 | h1
    · obtain ⟨s, hs⟩ := hangingOf_from_build e h1
      exact build_children hs
    · obtain ⟨s, hs⟩ := hangingOf_from_build e h1
      exact build_children hs

/-- Witness for C6 at the concrete fork position. -/
theorem C6_witness :
    forkC.get forkFen "b1" = some ⟨'n', Side.w⟩ ∧
    moveInfo forkC "b1" forkFen none = some forkEff ∧
    depthInvariant forkEff :=
  ⟨rfl, rfl, @C6_depth_invariant forkC forkFen "b1" none ⟨'n', Side.w⟩ forkEff
    rfl rfl⟩

/-! ### Hanging census (claims C2 and C10) -/

/-- Membership in a per-side hanging list, characterized. -/
theorem hangingOf_mem_iff {C : Collab} {fen : Fen} {q : SquareId}
    {side : Side} {e : PieceInEffect} :
    e ∈ hangingOf C fen q side ↔ ∃ sq ∈ squares64, ¬(sq = q) ∧
      ∃ p, C.get fen sq = some p ∧ p.color = side ∧
        buildPieceInEffect C sq fen 1 = some e ∧
        0 < e.attackers.length ∧ e.defenders.length = 0 := by
  unfold hangingOf
  rw [List.mem_filterMap]
  constructor
  · rintro ⟨sq, hsq, heq⟩
    refine ⟨sq, hsq, ?_⟩
    split at heq
    · cases heq
    · rename_i hne
      split at heq
      · cases heq
      · rename_i p hg
        split at heq
        · rename_i hcol
          split at heq
          · cases heq
          · rename_i eff heff
            split at heq
            · rename_i hcond
              injection heq with heq'
              subst heq'
              exact ⟨hne, p, hg, hcol, heff, hcond.1, hcond.2⟩
            · cases heq
        · cases heq
  · rintro ⟨sq, hsq, hne, p, hg, hcol, heff, hA, hD⟩
    refine ⟨sq, hsq, ?_⟩
    dsimp only
    rw [if_neg hne, hg]
    dsimp only
    rw [if_pos hcol, heff]
    dsimp only
    rw [if_pos ⟨hA, hD⟩]

/-- The defends list records the source's guard: a defender on the analyzed
square and not a king. -/
theorem defendsOf_mem {C : Collab} {fen : Fen} {q : SquareId} :
    ∀ e ∈ defendsOf C fen q,
      (e.defenders.any (fun d => d.atSq == q)) = true ∧ ¬(e.name = 'k') := by
  intro e he
  unfold defendsOf at he
  obtain ⟨sq, -, heq⟩ := List.mem_filterMap.mp he
  split at heq
  · cases heq
  · split at heq
    · cases heq
    · split at heq
      · cases heq
      · split at heq
        · rename_i hcond
          injection heq with heq'
          subst heq'
          have hcond' := hcond
          rw [Bool.and_eq_true] at hcond'
          refine ⟨hcond'.1, ?_⟩
          have := hcond'.2
          simpa using this
        · cases heq

/-- C2: the hanging census — an occupied non-queried square appears in
`hangingPieces` under the occupant's color iff its depth-1 resolution has at
least one attacker and no defenders; entries only come from occupied
non-queried squares under their own color. -/
theorem C2_hanging_census {C : Collab} {fen : Fen} {q : SquareId}
    {prevFen : Option Fen} {piece : Piece} {effAll : MoveEffect}
    (hq : C.get fen q = some piece)
    (hm : moveInfo C q fen prevFen = some effAll) :
    (∀ side, ∀ e ∈ effAll.hangingFor side, e.atSq ∈ squares64 ∧
      ¬(e.atSq = q) ∧ ∃ p, C.get fen e.atSq = some p ∧ p.color = side) ∧
    (∀ s ∈ squares64, ¬(s = q) → ∀ p, C.get fen s = some p → ∀ eff,
      buildPieceInEffect C s fen 1 = some eff →
      ((∃ e ∈ effAll.hangingFor p.color, e.atSq = s) ↔
        (0 < eff.attackers.length ∧ eff.defenders.length = 0))) ∧
    (∀ s ∈ squares64, ∀ p, C.get fen s = some p → ∀ side, ¬(side = p.color) →
      ∀ e ∈ effAll.hangingFor side, ¬(e.atSq = s)) := by
  have hb := build_one_eq C q fen piece hq
  rw [moveInfo_eq hq hb] at hm
  injection hm with hm'
  have hW : effAll.hangingW = hangingOf C fen q Side.w := by rw [← hm']
  have hB : effAll.hangingB = hangingOf C fen q Side.b := by rw [← hm']
  have hfor : ∀ side, effAll.hangingFor side = hangingOf C fen q side := by
    intro side
    cases side
    · exact hW
    · exact hB
  refine ⟨?_, ?_, ?_⟩
  · intro side e he
    rw [hfor side] at he
    obtain ⟨sq, hsq, hne, p, hg, hcol, heff, -, -⟩ := hangingOf_mem_iff.mp he
    obtain ⟨p3, hg3, hat3, -, -⟩ := build_inv heff
    rw [hat3]
    exact ⟨hsq, hne, p, hg, hcol⟩
  · intro s hs hne p hg eff heff
    constructor
    · rintro ⟨e, he, hats⟩
      rw [hfor p.color] at he
      obtain ⟨sq, hsq, hnesq, p2, hg2, hcol2, heff2, hA2, hD2⟩ :=
        hangingOf_mem_iff.mp he
      obtain ⟨p3, hg3, hat3, -, -⟩ := build_inv heff2
      have hss : sq = s := by rw [← hat3, hats]
      rw [hss] at heff2
      rw [heff] at heff2
      injection heff2 with hee
      rw [hee]
      exact ⟨hA2, hD2⟩
    · rintro ⟨hA, hD⟩
      obtain ⟨p3, hg3, hat3, -, -⟩ := build_inv heff
      refine ⟨eff, ?_, hat3⟩
      rw [hfor p.color]
      exact hangingOf_mem_iff.mpr ⟨s, hs, hne, p, hg, rfl, heff, hA, hD⟩
  · intro s hs p hg side hnecol e he hats
    rw [hfor side] at he
    obtain ⟨sq, hsq, hnesq, p2, hg2, hcol2, heff2, -, -⟩ :=
      hangingOf_mem_iff.mp he
    obtain ⟨p3, hg3, hat3, -, -⟩ := build_inv heff2
    have hss : sq = s := by rw [← hat3, hats]
    rw [hss] at hg2
    rw [hg] at hg2
    injection hg2 with hpp
    rw [hpp] at hnecol
    exact hnecol hcol2.symm

/-- C10: the king exclusion applies only to the defends list — an attacked,
undefended king still enters the hanging census for its own side, while the
defends list never contains a king. -/
theorem C10_king_exclusion {C : Collab} {fen : Fen} {q : SquareId}
    {prevFen : Option Fen} {piece : Piece} {effAll : MoveEffect}
    (hq : C.get fen q = some piece)
    (hm : moveInfo C q fen prevFen = some effAll) :
    (∀ e ∈ effAll.defends, ¬(e.name = 'k')) ∧
    (∀ s ∈ squares64, ¬(s = q) → ∀ p, C.get fen s = some p → p.type = 'k' →
      ∀ eff, buildPieceInEffect C s fen 1 = some eff →
        0 < eff.attackers.length → eff.defenders.length = 0 →
        ∃ e ∈ effAll.hangingFor p.color, e.atSq = s) := by
  have hb := build_one_eq C q fen piece hq
  rw [moveInfo_eq hq hb] at hm
  injection hm with hm'
  have hD : effAll.defends = defendsOf C fen q := by rw [← hm']
  have hW : effAll.hangingW = hangingOf C fen q Side.w := by rw [← hm']
  have hB : effAll.hangingB = hangingOf C fen q Side.b := by rw [← hm']
  have hfor : ∀ side, effAll.hangingFor side = hangingOf C fen q side := by
    intro side
    cases side
    · exact hW
    · exact hB
  constructor
  · intro e he
    rw [hD] at he
    exact (defendsOf_mem e he).2
  · intro s hs hne p hg hk eff heff hA hD0
    obtain ⟨p3, hg3, hat3, -, -⟩ := build_inv heff
    refine ⟨eff, ?_, hat3⟩
    rw [hfor p.color]
    exact hangingOf_mem_iff.mpr ⟨s, hs, hne, p, hg, rfl, heff, hA, hD0⟩

/-! A concrete hanging king: white pawn a1 (queried), white rook h1, black
king h8 attacked along the h-file with no defenders
(7k/8/8/8/8/8/8/P6R w - -). -/

def hangFen : Fen := "7k/8/8/8/8/8/8/P6R w - - 0 1"

def hangC : Collab where
  get := fun _ sq =>
    if sq = "a1" then some ⟨'p', Side.w⟩
    else if sq = "h1" then some ⟨'r', Side.w⟩
    else if sq = "h8" then some ⟨'k', Side.b⟩
    else none
  attackers := fun _ sq side =>
    if sq = "h8" then
      match side with
      | .w => ["h1"]
      | .b => []
    else []
  movesAll := fun _ => []
  movesFrom := fun _ sq =>
    if sq = "a1" then [⟨"a2", ['n'], "a2", none, none⟩] else []
  applyFen := fun _ _ => none
  isStalemate := fun _ => false
  setTurn := fun f _ => f
  doMove := fun _ _ => none
  turnOf := fun _ => Side.w

def hangEff : MoveEffect := (moveInfo hangC "a1" hangFen none).getD default

/-- Witness for C2 at the concrete hanging-king position. -/
theorem C2_witness :
    hangC.get hangFen "a1" = some ⟨'p', Side.w⟩ ∧
    moveInfo hangC "a1" hangFen none = some hangEff ∧
    ((∀ side, ∀ e ∈ hangEff.hangingFor side, e.atSq ∈ squares64 ∧
      ¬(e.atSq = "a1") ∧ ∃ p, hangC.get hangFen e.atSq = some p ∧
        p.color = side) ∧
    (∀ s ∈ squares64, ¬(s = "a1") → ∀ p, hangC.get hangFen s = some p →
      ∀ eff, buildPieceInEffect hangC s hangFen 1 = some eff →
      ((∃ e ∈ hangEff.hangingFor p.color, e.atSq = s) ↔
        (0 < eff.attackers.length ∧ eff.defenders.length = 0))) ∧
    (∀ s ∈ squares64, ∀ p, hangC.get hangFen s = some p → ∀ side,
      ¬(side = p.color) → ∀ e ∈ hangEff.hangingFor side, ¬(e.atSq = s))) :=
  ⟨rfl, rfl, @C2_hanging_census hangC hangFen "a1" none ⟨'p', Side.w⟩ hangEff
    rfl rfl⟩

/-- Witness for C10 at the concrete hanging-king position. -/
theorem C10_witness :
    hangC.get hangFen "a1" = some ⟨'p', Side.w⟩ ∧
    moveInfo hangC "a1" hangFen none = some hangEff ∧
    ((∀ e ∈ hangEff.defends, ¬(e.name = 'k')) ∧
    (∀ s ∈ squares64, ¬(s = "a1") → ∀ p, hangC.get hangFen s = some p →
      p.type = 'k' → ∀ eff, buildPieceInEffect hangC s hangFen 1 = some eff →
        0 < eff.attackers.length → eff.defenders.length = 0 →
        ∃ e ∈ hangEff.hangingFor p.color, e.atSq = s)) :=
  ⟨rfl, rfl, @C10_king_exclusion hangC hangFen "a1" none ⟨'p', Side.w⟩ hangEff
    rfl rfl⟩

/-! ### Attacker/defender partition (claim C5) -/

theorem filterMap_full {α β : Type} (f : α → Option β) (l : List α)
    (h : ∀ a ∈ l, (f a).isSome) : (l.filterMap f).length = l.length := by
  induction l with
  | nil => rfl
  | cons a l ih =>
    obtain ⟨b, hb⟩ := Option.isSome_iff_exists.mp (h a (List.mem_cons_self a l))
    rw [List.filterMap_cons, hb]
    simp only [List.length_cons]
    rw [ih (fun x hx => h x (List.mem_cons_of_mem a hx))]

theorem filter_length_split {α : Type} (p : α → Bool) (l : List α) :
    (l.filter p).length + (l.filter (fun a => !p a)).length = l.length := by
  induction l with
  | nil => rfl
  | cons a l ih =>
    cases hpa : p a <;>
      simp [List.filter_cons, hpa, Nat.succ_eq_add_one, ← ih] <;> omega

/-- Under the chess-engine consistency fact that every attacking square is
occupied, each square of `attackersOf(s,w) ++ attackersOf(s,b)` contributes
exactly one pair to the loop. -/
theorem subPairs_length {C : Collab} {fen : Fen} {s : SquareId}
    (hocc : ∀ fr ∈ C.attackers fen s Side.w ++ C.attackers fen s Side.b,
      (C.get fen fr).isSome) :
    (subPairs C fen s).length =
      (C.attackers fen s Side.w ++ C.attackers fen s Side.b).length := by
  unfold subPairs levelPairs
  apply filterMap_full
  intro fr hfr
  obtain ⟨pf, hpf⟩ := Option.isSome_iff_exists.mp (hocc fr hfr)
  rw [hpf]
  dsimp only
  rw [build_zero_eq C fr fen pf hpf]
  rfl

theorem subPairs_mem_mpr {C : Collab} {fen : Fen} {s : SquareId}
    {fr : SquareId} {pf : Piece}
    (hfr : fr ∈ C.attackers fen s Side.w ++ C.attackers fen s Side.b)
    (hpf : C.get fen fr = some pf) :
    (pf.color, PieceInEffect.mk fr pf.type pf.color [] []) ∈ subPairs C fen s := by
  unfold subPairs levelPairs
  apply List.mem_filterMap.mpr
  refine ⟨fr, hfr, ?_⟩
  rw [hpf]
  dsimp only
  rw [build_zero_eq C fr fen pf hpf]

/-- C5: the depth-1 resolution's attacker and defender lists partition the
union of the collaborator's white and black attacker squares: one entry per
attacking square, classified as defender iff the attacking piece's side
equals the occupant's, the lists disjoint and their lengths summing to the
attacker-square count. -/
theorem C5_partition {C : Collab} {fen : Fen} {s : SquareId} {p : Piece}
    {eff : PieceInEffect}
    (hq : C.get fen s = some p)
    (hocc : ∀ fr ∈ C.attackers fen s Side.w ++ C.attackers fen s Side.b,
      (C.get fen fr).isSome)
    (heff : buildPieceInEffect C s fen 1 = some eff) :
    eff.attackers.length + eff.defenders.length =
      (C.attackers fen s Side.w ++ C.attackers fen s Side.b).length ∧
    (∀ e ∈ eff.attackers, ¬(e.color = p.color) ∧
      ∃ fr ∈ C.attackers fen s Side.w ++ C.attackers fen s Side.b,
        buildPieceInEffect C fr fen 0 = some e) ∧
    (∀ e ∈ eff.defenders, e.color = p.color ∧
      ∃ fr ∈ C.attackers fen s Side.w ++ C.attackers fen s Side.b,
        buildPieceInEffect C fr fen 0 = some e) ∧
    (∀ fr ∈ C.attackers fen s Side.w ++ C.attackers fen s Side.b,
      ∀ pf, C.get fen fr = some pf → ∃ e,
        buildPieceInEffect C fr fen 0 = some e ∧
        (if pf.color = p.color then e ∈ eff.defenders
          else e ∈ eff.attackers)) ∧
    (∀ e ∈ eff.attackers, e ∉ eff.defenders) := by
  rw [build_one_eq C s fen p hq] at heff
  injection heff with heff'
  have hA : eff.attackers = ((subPairs C fen s).filter
      (fun z => !decide (z.1 = p.color))).map Prod.snd := by
    rw [← heff']
    exact PieceInEffect.attackers_mk _ _ _ _ _
  have hD : eff.defenders = ((subPairs C fen s).filter
      (fun z => decide (z.1 = p.color))).map Prod.snd := by
    rw [← heff']
    exact PieceInEffect.defenders_mk _ _ _ _ _
  have memA : ∀ e ∈ eff.attackers, ¬(e.color = p.color) ∧
      ∃ fr ∈ C.attackers fen s Side.w ++ C.attackers fen s Side.b,
        buildPieceInEffect C fr fen 0 = some e := by
    intro e he
    rw [hA] at he
    obtain ⟨z, hz, hze⟩ := List.mem_map.mp he
    obtain ⟨hzmem, hzpred⟩ := List.mem_filter.mp hz
    obtain ⟨fr, hfr, pf, hpf, hz1, hsub⟩ := levelPairs_mem hzmem
    have hsub' : buildPieceInEffect C fr fen 0 = some z.2 := hsub
    obtain ⟨pf2, hpf2, -, -, hcol⟩ := build_inv hsub'
    rw [hpf] at hpf2
    injection hpf2 with hpfe
    constructor
    · rw [← hze, hcol, ← hpfe, ← hz1]
      simpa using hzpred
    · exact ⟨fr, hfr, by rw [hze] at hsub'; exact hsub'⟩
  have memD : ∀ e ∈ eff.defenders, e.color = p.color ∧
      ∃ fr ∈ C.attackers fen s Side.w ++ C.attackers fen s Side.b,
        buildPieceInEffect C fr fen 0 = some e := by
    intro e he
    rw [hD] at he
    obtain ⟨z, hz, hze⟩ := List.mem_map.mp he
    obtain ⟨hzmem, hzpred⟩ := List.mem_filter.mp hz
    obtain ⟨fr, hfr, pf, hpf, hz1, hsub⟩ := levelPairs_mem hzmem
    have hsub' : buildPieceInEffect C fr fen 0 = some z.2 := hsub
    obtain ⟨pf2, hpf2, -, -, hcol⟩ := build_inv hsub'
    rw [hpf] at hpf2
    injection hpf2 with hpfe
    constructor
    · rw [← hze, hcol, ← hpfe, ← hz1]
      simpa using hzpred
    · exact ⟨fr, hfr, by rw [hze] at hsub'; exact hsub'⟩
  refine ⟨?_, memA, memD, ?_, ?_⟩
  · rw [hA, hD]
    rw [List.length_map, List.length_map]
    rw [← subPairs_length hocc]
    have := filter_length_split (fun z : Side × PieceInEffect =>
      decide (z.1 = p.color)) (subPairs C fen s)
    omega
  · intro fr hfr pf hpf
    refine ⟨PieceInEffect.mk fr pf.type pf.color [] [],
      build_zero_eq C fr fen pf hpf, ?_⟩
    have hzmem := subPairs_mem_mpr hfr hpf
    by_cases hc : pf.color = p.color
    · rw [if_pos hc, hD]
      apply List.mem_map.mpr
      refine ⟨(pf.color, PieceInEffect.mk fr pf.type pf.color [] []), ?_, rfl⟩
      apply List.mem_filter.mpr
      exact ⟨hzmem, by simpa using hc⟩
    · rw [if_neg hc, hA]
      apply List.mem_map.mpr
      refine ⟨(pf.color, PieceInEffect.mk fr pf.type pf.color [] []), ?_, rfl⟩
      apply List.mem_filter.mpr
      exact ⟨hzmem, by simpa using hc⟩
  · intro e heA heD
    exact (memA e heA).1 (memD e heD).1

def hangKingEff : PieceInEffect :=
  (buildPieceInEffect hangC "h8" hangFen 1).getD default

/-- Witness for C5: the black king h8 with one white attacker (rook h1) and
no defenders. -/
theorem C5_witness :
    hangC.get hangFen "h8" = some ⟨'k', Side.b⟩ ∧
    (∀ fr ∈ hangC.attackers hangFen "h8" Side.w ++
        hangC.attackers hangFen "h8" Side.b, (hangC.get hangFen fr).isSome) ∧
    buildPieceInEffect hangC "h8" hangFen 1 = some hangKingEff ∧
    (hangKingEff.attackers.length + hangKingEff.defenders.length =
      (hangC.attackers hangFen "h8" Side.w ++
        hangC.attackers hangFen "h8" Side.b).length ∧
    (∀ e ∈ hangKingEff.attackers, ¬(e.color = Piece.color ⟨'k', Side.b⟩) ∧
      ∃ fr ∈ hangC.attackers hangFen "h8" Side.w ++
          hangC.attackers hangFen "h8" Side.b,
        buildPieceInEffect hangC fr hangFen 0 = some e) ∧
    (∀ e ∈ hangKingEff.defenders, e.color = Piece.color ⟨'k', Side.b⟩ ∧
      ∃ fr ∈ hangC.attackers hangFen "h8" Side.w ++
          hangC.attackers hangFen "h8" Side.b,
        buildPieceInEffect hangC fr hangFen 0 = some e) ∧
    (∀ fr ∈ hangC.attackers hangFen "h8" Side.w ++
        hangC.attackers hangFen "h8" Side.b,
      ∀ pf, hangC.get hangFen fr = some pf → ∃ e,
        buildPieceInEffect hangC fr hangFen 0 = some e ∧
        (if pf.color = Piece.color ⟨'k', Side.b⟩ then e ∈ hangKingEff.defenders
          else e ∈ hangKingEff.attackers)) ∧
    (∀ e ∈ hangKingEff.attackers, e ∉ hangKingEff.defenders)) :=
  ⟨rfl, by decide, rfl,
    @C5_partition hangC hangFen "h8" ⟨'k', Side.b⟩ hangKingEff rfl (by decide)
      rfl⟩

/-! ### Captured piece (claim C7) -/

/-- The captured-piece block in closed form: present iff the matched move's
destination square is occupied on the previous snapshot. -/
theorem capturedOf_eq (C : Collab) (prev : Fen) (m : VMove) :
    capturedOf C prev m = (C.get prev m.toSq).map
      (fun cap => PieceInEffect.mk m.toSq cap.type cap.color [] []) := by
  unfold capturedOf
  cases hg : C.get prev m.toSq with
  | none => rfl
  | some cap =>
    rw [build_zero_eq C m.toSq prev cap hg]
    simp [PieceInEffect.color_mk, PieceInEffect.attackers_mk,
      PieceInEffect.defenders_mk]

/-- C7 (amended): when a previous snapshot is supplied and a legal move
matches the transition, `capturedPiece` equals the occupant of the matched
move's destination square on the previous snapshot (depth 0, relabeled with
that occupant's kind) — and is absent when that square is empty there, as
happens for en passant even though the move captured. -/
theorem C7_captured {C : Collab} {fen : Fen} {q : SquareId} {prev : Fen}
    {piece : Piece} {eff : MoveEffect} {m : VMove}
    (hq : C.get fen q = some piece)
    (hm : moveInfo C q fen (some prev) = some eff)
    (hmatch : findMatched C prev fen = some m) :
    eff.capturedPiece = (C.get prev m.toSq).map
      (fun cap => PieceInEffect.mk m.toSq cap.type cap.color [] []) := by
  have hb := build_one_eq C q fen piece hq
  rw [moveInfo_eq hq hb] at hm
  injection hm with hm'
  have hcp : eff.capturedPiece = capturedPieceOf C (some prev) fen := by
    rw [← hm']
  rw [hcp]
  unfold capturedPieceOf matchedOf
  dsimp only
  rw [hmatch]
  exact capturedOf_eq C prev m

/-! An en passant transition: 4k3/8/8/pP6/8/8/8/4K3 w - a6 (white pawn b5,
black pawn a5), white plays bxa6 e.p.; the destination a6 is empty on the
previous snapshot. -/

def epFen0 : Fen := "4k3/8/8/pP6/8/8/8/4K3 w - a6 0 1"

def epFen1 : Fen := "4k3/8/P7/8/8/8/8/4K3 b - - 0 1"

def epMove : VMove := ⟨"a6", ['e'], "bxa6", some 'p', none⟩

def enC : Collab where
  get := fun f sq =>
    if f = epFen0 then
      if sq = "b5" then some ⟨'p', Side.w⟩
      else if sq = "a5" then some ⟨'p', Side.b⟩
      else if sq = "e1" then some ⟨'k', Side.w⟩
      else if sq = "e8" then some ⟨'k', Side.b⟩
      else none
    else
      if sq = "a6" then some ⟨'p', Side.w⟩
      else if sq = "e1" then some ⟨'k', Side.w⟩
      else if sq = "e8" then some ⟨'k', Side.b⟩
      else none
  attackers := fun _ _ _ => []
  movesAll := fun f => if f = epFen0 then [epMove] else []
  movesFrom := fun f sq =>
    if ¬(f = epFen0) ∧ sq = "a6" then [⟨"a7", ['n'], "a7", none, none⟩]
    else []
  applyFen := fun f m => if f = epFen0 ∧ m = epMove then some epFen1 else none
  isStalemate := fun _ => false
  setTurn := fun f _ => f
  doMove := fun _ _ => none
  turnOf := fun _ => Side.b

/-- C7 counterexample: the en passant transition matches a legal move that
captured a pawn (`captured = 'p'`), yet the returned `capturedPiece` is
absent, because the destination square a6 is empty on the previous
snapshot. -/
theorem C7_counterexample :
    findMatched enC epFen0 epFen1 = some epMove ∧
    epMove.captured = some 'p' ∧
    (moveInfo enC "a6" epFen1 (some epFen0)).isSome = true ∧
    (moveInfo enC "a6" epFen1 (some epFen0)).bind MoveEffect.capturedPiece =
      none := by
  refine ⟨?_, rfl, ?_, ?_⟩ <;> rfl

/-! A plain capture: 4k3/8/8/8/8/p7/8/R3K3 w - - (white rook a1, black pawn
a3), white plays Rxa3. -/

def capFen0 : Fen := "4k3/8/8/8/8/p7/8/R3K3 w - - 0 1"

def capFen1 : Fen := "4k3/8/8/8/8/R7/8/4K3 b - - 0 1"

def capMove : VMove := ⟨"a3", ['c'], "Rxa3", some 'p', none⟩

def capC : Collab where
  get := fun f sq =>
    if f = capFen0 then
      if sq = "a1" then some ⟨'r', Side.w⟩
      else if sq = "a3" then some ⟨'p', Side.b⟩
      else if sq = "e1" then some ⟨'k', Side.w⟩
      else if sq = "e8" then some ⟨'k', Side.b⟩
      else none
    else
      if sq = "a3" then some ⟨'r', Side.w⟩
      else if sq = "e1" then some ⟨'k', Side.w⟩
      else if sq = "e8" then some ⟨'k', Side.b⟩
      else none
  attackers := fun _ _ _ => []
  movesAll := fun f => if f = capFen0 then [capMove] else []
  movesFrom := fun _ _ => []
  applyFen := fun f m => if f = capFen0 ∧ m = capMove then some capFen1 else none
  isStalemate := fun _ => false
  setTurn := fun f _ => f
  doMove := fun f arg =>
    if f = capFen0 ∧ arg = "Rxa3" then some ⟨"a3", capFen0, capFen1, none⟩
    else none
  turnOf := fun _ => Side.b

def capEff : MoveEffect :=
  (moveInfo capC "a3" capFen1 (some capFen0)).getD default

/-- Witness for the amended C7: a plain capture, where the destination on
the previous snapshot holds the captured black pawn. -/
theorem C7_witness :
    capC.get capFen1 "a3" = some ⟨'r', Side.w⟩ ∧
    moveInfo capC "a3" capFen1 (some capFen0) = some capEff ∧
    findMatched capC capFen0 capFen1 = some capMove ∧
    capEff.capturedPiece = (capC.get capFen0 capMove.toSq).map
      (fun cap => PieceInEffect.mk capMove.toSq cap.type cap.color [] []) :=
  ⟨rfl, rfl, rfl,
    @C7_captured capC capFen1 "a3" capFen0 ⟨'r', Side.w⟩ capEff capMove
      rfl rfl rfl⟩

/-! ### Material ledger (claim C8) -/

theorem matAt_def (st : BCState) (s : Side) (k : Char) :
    matAt st s k = (st.matFor s).kindCount k := rfl

theorem matAt_setFor (st : BCState) (s : Side) (m : PieceRecord)
    (s' : Side) (k : Char) :
    matAt (st.setFor s m) s' k =
      if s' = s then m.kindCount k else matAt st s' k := by
  cases s <;> cases s' <;> simp [matAt, BCState.setFor, BCState.matFor]

theorem matFor_setFor (st : BCState) (s : Side) (m : PieceRecord) (s' : Side) :
    (st.setFor s m).matFor s' = if s' = s then m else st.matFor s' := by
  cases s <;> cases s' <;> simp [BCState.setFor, BCState.matFor]

theorem matFor_fenHistory (st : BCState) (f : Fen) (h : List MoveRes)
    (s : Side) :
    ({ st with fen := f, history := h } : BCState).matFor s = st.matFor s := by
  cases s <;> rfl

theorem matAt_fenHistory (st : BCState) (f : Fen) (h : List MoveRes)
    (s : Side) (k : Char) :
    matAt ({ st with fen := f, history := h } : BCState) s k = matAt st s k := by
  cases s <;> rfl

theorem kindCount_dec (m : PieceRecord) (kd k : Char)
    (hk : kd ∈ (['r', 'n', 'b', 'q', 'p'] : List Char)) :
    (m.dec kd).kindCount k = m.kindCount k - (if k = kd then 1 else 0) := by
  have hkd : kd = 'r' ∨ kd = 'n' ∨ kd = 'b' ∨ kd = 'q' ∨ kd = 'p' := by
    simpa using hk
  rcases hkd with rfl | rfl | rfl | rfl | rfl <;>
    · show (PieceRecord.kindCount _ _ : Int) = _
      unfold PieceRecord.dec PieceRecord.kindCount
      split_ifs <;> simp_all

theorem kindCount_inc (m : PieceRecord) (kd k : Char)
    (hk : kd ∈ (['r', 'n', 'b', 'q'] : List Char)) :
    (m.inc kd).kindCount k = m.kindCount k + (if k = kd then 1 else 0) := by
  have hkd : kd = 'r' ∨ kd = 'n' ∨ kd = 'b' ∨ kd = 'q' := by simpa using hk
  rcases hkd with rfl | rfl | rfl | rfl <;>
    · show (PieceRecord.kindCount _ _ : Int) = _
      unfold PieceRecord.inc PieceRecord.kindCount
      split_ifs <;> simp_all

/-- C8 (amended): on a successful `moveAndAnalyze`, the ledger entry of the
post-move side to move (the losing side) for the capturedPiece's kind drops
by exactly one when a capturedPiece is present; the mover's entry for the
promoted-to kind rises by exactly one when (and only when) the returned
analysis type is still `promotion`; nothing else changes. -/
theorem C8_ledger {C : Collab} {st : BCState} {arg : String} {mv : MoveRes}
    {st2 : BCState} {a : MoveEffect}
    (hmv : C.doMove st.fen arg = some mv)
    (hrun : moveAndAnalyze C st arg = (st2, some a))
    (hcapk : ∀ cp, a.capturedPiece = some cp →
      cp.name ∈ (['r', 'n', 'b', 'q', 'p'] : List Char))
    (hpk : ∀ pk, mv.promotion = some pk →
      pk ∈ (['r', 'n', 'b', 'q'] : List Char)) :
    ∀ side k, matAt st2 side k = matAt st side k
      - (match a.capturedPiece with
         | some cp => if side = C.turnOf mv.after ∧ k = cp.name then 1 else 0
         | none => 0)
      + (if a.type = MoveType.promotion then
          match mv.promotion with
          | some pk => if side = (if C.turnOf mv.after = Side.w then Side.b
              else Side.w) ∧ k = pk then 1 else 0
          | none => 0
         else 0) := by
  unfold moveAndAnalyze at hrun
  rw [hmv] at hrun
  dsimp only at hrun
  rw [Prod.mk.injEq] at hrun
  obtain ⟨h1, h2⟩ := hrun
  rw [h2] at h1
  dsimp only at h1
  subst h1
  intro side k
  have hne : ¬((if C.turnOf mv.after = Side.w then Side.b else Side.w) =
      C.turnOf mv.after) := by
    cases hT : C.turnOf mv.after <;> simp
  cases hcp : a.capturedPiece with
  | none =>
    cases hpm : mv.promotion with
    | none =>
      by_cases hty : a.type = MoveType.promotion <;>
        simp [hty, matAt_fenHistory]
    | some pk =>
      by_cases hty : a.type = MoveType.promotion
      · simp only [hty, ite_true, eq_self_iff_true]
        rw [matAt_setFor]
        rw [kindCount_inc _ _ _ (hpk pk hpm)]
        simp only [matAt_def, matFor_fenHistory]
        split_ifs <;> simp_all
      · simp [hty, matAt_fenHistory]
  | some cp =>
    have hcpk := hcapk cp hcp
    cases hpm : mv.promotion with
    | none =>
      by_cases hty : a.type = MoveType.promotion <;>
      · simp only [hty, ite_true, ite_false, eq_self_iff_true]
        rw [matAt_setFor]
        rw [kindCount_dec _ _ _ hcpk]
        simp only [matAt_def, matFor_fenHistory]
        split_ifs <;> simp_all
    | some pk =>
      by_cases hty : a.type = MoveType.promotion
      · simp only [hty, ite_true, eq_self_iff_true]
        rw [matAt_setFor]
        rw [kindCount_inc _ _ _ (hpk pk hpm)]
        rw [matFor_setFor]
        rw [if_neg hne]
        rw [matAt_setFor]
        rw [kindCount_dec _ _ _ hcpk]
        simp only [matAt_def, matFor_fenHistory]
        split_ifs <;> simp_all
      · simp only [hty, ite_false, eq_self_iff_true]
        rw [matAt_setFor]
        rw [kindCount_dec _ _ _ hcpk]
        simp only [matAt_def, matFor_fenHistory]
        split_ifs <;> simp_all

/-! A promotion whose analysis type is overwritten: 7r/P7/4k3/8/8/8/8/4K3,
white plays a8=Q; the new queen is attacked by the rook h8, so the analysis
returns `attacking`, not `promotion`, and moveAndAnalyze leaves the ledger
untouched. -/

def pf0 : Fen := "7r/P7/4k3/8/8/8/8/4K3 w - - 0 1"

def pf1 : Fen := "Q6r/8/4k3/8/8/8/8/4K3 b - - 0 1"

def promVMove : VMove := ⟨"a8", ['n', 'p'], "a8=Q", none, some 'q'⟩

def promC : Collab where
  get := fun f sq =>
    if f = pf0 then
      if sq = "a7" then some ⟨'p', Side.w⟩
      else if sq = "h8" then some ⟨'r', Side.b⟩
      else if sq = "e1" then some ⟨'k', Side.w⟩
      else if sq = "e6" then some ⟨'k', Side.b⟩
      else none
    else
      if sq = "a8" then some ⟨'q', Side.w⟩
      else if sq = "h8" then some ⟨'r', Side.b⟩
      else if sq = "e1" then some ⟨'k', Side.w⟩
      else if sq = "e6" then some ⟨'k', Side.b⟩
      else none
  attackers := fun f sq side =>
    if f = pf1 then
      if sq = "a8" then
        match side with
        | .w => []
        | .b => ["h8"]
      else if sq = "h8" then
        match side with
        | .w => ["a8"]
        | .b => []
      else []
    else []
  movesAll := fun f => if f = pf0 then [promVMove] else []
  movesFrom := fun f sq =>
    if f = pf1 ∧ sq = "a8" then [⟨"h8", ['c'], "Qxh8", some 'r', none⟩]
    else []
  applyFen := fun f m => if f = pf0 ∧ m = promVMove then some pf1 else none
  isStalemate := fun _ => false
  setTurn := fun f _ => f
  doMove := fun f arg =>
    if f = pf0 ∧ arg = "a8=Q" then some ⟨"a8", pf0, pf1, some 'q'⟩ else none
  turnOf := fun _ => Side.b

def promSt0 : BCState := ⟨pf0, ⟨2, 2, 2, 1, 8⟩, ⟨2, 2, 2, 1, 8⟩, []⟩

/-- C8 counterexample: the applied move is a promotion (`promotion = 'q'`,
flag `p`), but the analysis type comes back `attacking` (the promoted queen
is attacked), so no ledger entry is incremented — the whole ledger is
unchanged, where the claim demands the mover's queen count rise by one. -/
theorem C8_counterexample :
    promC.doMove promSt0.fen "a8=Q" = some ⟨"a8", pf0, pf1, some 'q'⟩ ∧
    (moveAndAnalyze promC promSt0 "a8=Q").2.map MoveEffect.type =
      some MoveType.attacking ∧
    (moveAndAnalyze promC promSt0 "a8=Q").1.materialW = promSt0.materialW ∧
    (moveAndAnalyze promC promSt0 "a8=Q").1.materialB = promSt0.materialB :=
  ⟨rfl, rfl, rfl, rfl⟩

def capSt0 : BCState := ⟨capFen0, ⟨2, 2, 2, 1, 8⟩, ⟨2, 2, 2, 1, 8⟩, []⟩

/-- Witness for the amended C8: the capture Rxa3 decrements black's pawn
count by one and changes nothing else. -/
theorem C8_witness :
    capC.doMove capSt0.fen "Rxa3" = some ⟨"a3", capFen0, capFen1, none⟩ ∧
    moveAndAnalyze capC capSt0 "Rxa3" =
      ((moveAndAnalyze capC capSt0 "Rxa3").1, some capEff) ∧
    (∀ side k, matAt ((moveAndAnalyze capC capSt0 "Rxa3").1) side k =
      matAt capSt0 side k
      - (match capEff.capturedPiece with
         | some cp => if side = capC.turnOf
             (⟨"a3", capFen0, capFen1, none⟩ : MoveRes).after ∧ k = cp.name
             then 1 else 0
         | none => 0)
      + (if capEff.type = MoveType.promotion then
          match (⟨"a3", capFen0, capFen1, none⟩ : MoveRes).promotion with
          | some pk => if side = (if capC.turnOf
              (⟨"a3", capFen0, capFen1, none⟩ : MoveRes).after = Side.w
              then Side.b else Side.w) ∧ k = pk then 1 else 0
          | none => 0
         else 0)) := by
  refine ⟨rfl, rfl, ?_⟩
  have hcap : ∀ cp, capEff.capturedPiece = some cp →
      cp.name ∈ (['r', 'n', 'b', 'q', 'p'] : List Char) := by
    intro cp h
    have h' : PieceInEffect.mk "a3" 'p' Side.b [] [] = cp := Option.some_inj.mp h
    rw [← h']
    decide
  have hpk : ∀ pk, (⟨"a3", capFen0, capFen1, none⟩ : MoveRes).promotion =
      some pk → pk ∈ (['r', 'n', 'b', 'q'] : List Char) := by
    intro pk h
    cases h
  exact @C8_ledger capC capSt0 "Rxa3" ⟨"a3", capFen0, capFen1, none⟩
    ((moveAndAnalyze capC capSt0 "Rxa3").1) capEff rfl rfl hcap hpk

/-! ### Idempotence of the square-analysis entry point (claim C9) -/

/-- C9: `getAnalysisAt` does not mutate the game state, and calling it twice
on the same unchanged position returns structurally identical results — in
this embedding the method is a pure function of the threaded state, whose
state component it returns unchanged. -/
theorem C9_idempotent (C : Collab) (st : BCState) (square : SquareId) :
    (getAnalysisAt C st square).1 = st ∧
    (getAnalysisAt C (getAnalysisAt C st square).1 square).2 =
      (getAnalysisAt C st square).2 :=
  ⟨rfl, rfl⟩

/-! ### Ray scan characterization (claim C3) -/

theorem rayLoop_eq (C : Collab) (fen : Fen) (dx dy : Int) :
    ∀ (fuel : Nat) (x y : Int) (acc : List PieceInEffect), acc.length < 2 →
    rayLoop C fen dx dy fuel x y acc =
      acc ++ (((raySquares dx dy fuel x y).filter
        (fun s => (C.get fen s).isSome)).take (2 - acc.length)).filterMap
        (fun s => buildPieceInEffect C s fen 0) := by
  intro fuel
  induction fuel with
  | zero => intro x y acc hacc; simp [rayLoop, raySquares]
  | succ fuel ih =>
    intro x y acc hacc
    rw [rayLoop, raySquares]
    by_cases hin : inBoard x y
    · rw [if_pos hin, if_pos hin]
      dsimp only
      cases hg : C.get fen (mkSquare x y) with
      | none =>
        rw [List.filter_cons]
        simp only [hg, Option.isSome_none, Bool.false_eq_true, if_false]
        exact ih (x + dx) (y + dy) acc hacc
      | some pz =>
        rw [build_zero_eq C (mkSquare x y) fen pz hg]
        dsimp only
        rw [List.filter_cons]
        simp only [hg, Option.isSome_some, if_true]
        rcases acc with _ | ⟨a, _ | ⟨b, t⟩⟩
        · simp only [List.nil_append, List.length_nil, Nat.sub_zero,
            List.length_cons, List.length_append, List.length_singleton]
          rw [if_neg (by simp)]
          rw [ih (x + dx) (y + dy)
            [PieceInEffect.mk (mkSquare x y) pz.type pz.color [] []] (by simp)]
          rw [List.take_succ_cons, List.filterMap_cons,
            build_zero_eq C (mkSquare x y) fen pz hg]
          simp
        · simp only [List.length_singleton]
          rw [if_pos (by simp)]
          simp [List.take_succ_cons, List.filterMap_cons,
            build_zero_eq C (mkSquare x y) fen pz hg]
        · simp only [List.length_cons] at hacc
          exfalso
          omega
    · rw [if_neg hin, if_neg hin]
      simp

/-- The ray walk returns exactly the first two occupied squares of the ray
(resolved at depth 0), in walk order. -/
theorem getPiecesAlongRay_eq (C : Collab) (fen : Fen) (q : SquareId)
    (dx dy : Int) :
    getPiecesAlongRay C fen q dx dy =
      ((occupiedAlong C fen q dx dy).take 2).filterMap
        (fun s => buildPieceInEffect C s fen 0) := by
  unfold getPiecesAlongRay occupiedAlong
  rw [rayLoop_eq C fen dx dy 16 _ _ [] (by simp)]
  simp

theorem occupiedAlong_isSome {C : Collab} {fen : Fen} {q : SquareId}
    {dx dy : Int} :
    ∀ s ∈ occupiedAlong C fen q dx dy, (C.get fen s).isSome := by
  intro s hs
  unfold occupiedAlong at hs
  exact (List.mem_filter.mp hs).2

/-- A direction whose ray holds at least two occupied squares yields a
finding iff both occupants are enemies; the finding's targets are the two
front-most occupants in ray order, classified skewer iff the front piece
outvalues the back piece and the queried piece is defended/overdefended. -/
theorem rayFinding_two {C : Collab} {fen : Fen} {q : SquareId} {col : Side}
    {defense : Defense} (d : Int × Int) (s1 s2 : SquareId)
    (rest : List SquareId)
    (hocc : occupiedAlong C fen q d.1 d.2 = s1 :: s2 :: rest)
    (p1 : Piece) (hp1 : C.get fen s1 = some p1)
    (p2 : Piece) (hp2 : C.get fen s2 = some p2) :
    rayFinding C fen q col defense d =
      if ¬(p1.color = col) ∧ ¬(p2.color = col) then
        some ⟨(if PIECE_VALS p2.type < PIECE_VALS p1.type ∧
            (defense = Defense.defended ∨ defense = Defense.overdefended)
            then TacticKind.skewer else TacticKind.pin),
          [PieceInEffect.mk s1 p1.type p1.color [] [],
           PieceInEffect.mk s2 p2.type p2.color [] []]⟩
      else none := by
  unfold rayFinding
  rw [getPiecesAlongRay_eq, hocc]
  simp [List.take_succ_cons, List.filterMap_cons,
    build_zero_eq C s1 fen p1 hp1, build_zero_eq C s2 fen p2 hp2,
    PieceInEffect.color_mk, PieceInEffect.name_mk]

/-- A direction whose ray holds fewer than two occupied squares yields no
finding. -/
theorem rayFinding_short {C : Collab} {fen : Fen} {q : SquareId} {col : Side}
    {defense : Defense} (d : Int × Int)
    (hlen : (occupiedAlong C fen q d.1 d.2).length < 2) :
    rayFinding C fen q col defense d = none := by
  unfold rayFinding
  rw [getPiecesAlongRay_eq]
  rcases hocc : occupiedAlong C fen q d.1 d.2 with _ | ⟨s1, _ | ⟨s2, rest⟩⟩
  · simp
  · cases hb : buildPieceInEffect C s1 fen 0 <;> simp [hb]
  · rw [hocc] at hlen
    simp only [List.length_cons] at hlen
    exfalso
    omega

/-- C3: for a queried bishop, rook or queen, the non-fork tactics are exactly
one optional pin-or-skewer finding per ray direction relevant to the piece
kind; a direction yields a finding iff the ray's first two occupied squares
both hold enemy pieces; the targets are `[front, back]` in ray order, and the
finding is a skewer iff the front piece strictly outvalues the back piece and
the queried piece's defense tag is defended/overdefended — otherwise a pin. -/
theorem C3_pin_skewer {C : Collab} {fen : Fen} {q : SquareId}
    {prevFen : Option Fen} {piece : Piece} {eff : MoveEffect}
    (hq : C.get fen q = some piece)
    (hkind : piece.type = 'b' ∨ piece.type = 'r' ∨ piece.type = 'q')
    (hm : moveInfo C q fen prevFen = some eff) :
    eff.tactics.filter (fun t => !decide (t.tactic = TacticKind.fork)) =
      (DIRECTIONS piece.type).filterMap
        (rayFinding C fen q piece.color eff.defense) ∧
    (∀ d ∈ DIRECTIONS piece.type, ∀ s1 s2 rest,
      occupiedAlong C fen q d.1 d.2 = s1 :: s2 :: rest →
      ∀ p1, C.get fen s1 = some p1 → ∀ p2, C.get fen s2 = some p2 →
      rayFinding C fen q piece.color eff.defense d =
        (if ¬(p1.color = piece.color) ∧ ¬(p2.color = piece.color) then
          some ⟨(if PIECE_VALS p2.type < PIECE_VALS p1.type ∧
              (eff.defense = Defense.defended ∨
                eff.defense = Defense.overdefended) then TacticKind.skewer
              else TacticKind.pin),
            [PieceInEffect.mk s1 p1.type p1.color [] [],
             PieceInEffect.mk s2 p2.type p2.color [] []]⟩
          else none)) ∧
    (∀ d ∈ DIRECTIONS piece.type,
      (occupiedAlong C fen q d.1 d.2).length < 2 →
      rayFinding C fen q piece.color eff.defense d = none) := by
  have hb := build_one_eq C q fen piece hq
  rw [moveInfo_eq hq hb] at hm
  injection hm with hm'
  subst hm'
  refine ⟨?_, ?_, ?_⟩
  · dsimp only
    rw [List.filter_append]
    have hF : (if 1 < (attacksOf C fen q piece.color).length then
        [(⟨TacticKind.fork, attacksOf C fen q piece.color⟩ : TacticalMove)]
        else []).filter (fun t => !decide (t.tactic = TacticKind.fork)) = [] := by
      split <;> simp
    rw [hF, List.nil_append]
    rw [List.filter_eq_self.mpr]
    · unfold pinSkewerOf
      rw [if_pos hkind]
    · intro t ht
      simpa using pinSkewerOf_no_fork t ht
  · intro d hd s1 s2 rest hocc p1 hp1 p2 hp2
    exact rayFinding_two d s1 s2 rest hocc p1 hp1 p2 hp2
  · intro d hd hlen
    exact rayFinding_short d hlen

/-! A concrete pin: 4k3/8/8/q7/8/n7/8/R3K3, white rook a1 with the black
knight a3 in front of the black queen a5 on the north ray. -/

def pinFen : Fen := "4k3/8/8/q7/8/n7/8/R3K3 w - - 0 1"

def pinC : Collab where
  get := fun _ sq =>
    if sq = "a1" then some ⟨'r', Side.w⟩
    else if sq = "a3" then some ⟨'n', Side.b⟩
    else if sq = "a5" then some ⟨'q', Side.b⟩
    else if sq = "e1" then some ⟨'k', Side.w⟩
    else if sq = "e8" then some ⟨'k', Side.b⟩
    else none
  attackers := fun _ sq side =>
    if sq = "a3" then
      match side with
      | .w => ["a1"]
      | .b => ["a5"]
    else []
  movesAll := fun _ => []
  movesFrom := fun _ sq =>
    if sq = "a1" then
      [⟨"a2", ['n'], "Ra2", none, none⟩,
       ⟨"a3", ['c'], "Rxa3", some 'n', none⟩,
       ⟨"b1", ['n'], "Rb1", none, none⟩]
    else []
  applyFen := fun _ _ => none
  isStalemate := fun _ => false
  setTurn := fun f _ => f
  doMove := fun _ _ => none
  turnOf := fun _ => Side.w

def pinEff : MoveEffect := (moveInfo pinC "a1" pinFen none).getD default

/-- Witness for C3 at the concrete pin position. -/
theorem C3_witness :
    pinC.get pinFen "a1" = some ⟨'r', Side.w⟩ ∧
    ((⟨'r', Side.w⟩ : Piece).type = 'b' ∨ (⟨'r', Side.w⟩ : Piece).type = 'r' ∨
      (⟨'r', Side.w⟩ : Piece).type = 'q') ∧
    moveInfo pinC "a1" pinFen none = some pinEff ∧
    (pinEff.tactics.filter (fun t => !decide (t.tactic = TacticKind.fork)) =
      (DIRECTIONS (⟨'r', Side.w⟩ : Piece).type).filterMap
        (rayFinding pinC pinFen "a1" (⟨'r', Side.w⟩ : Piece).color
          pinEff.defense) ∧
    (∀ d ∈ DIRECTIONS (⟨'r', Side.w⟩ : Piece).type, ∀ s1 s2 rest,
      occupiedAlong pinC pinFen "a1" d.1 d.2 = s1 :: s2 :: rest →
      ∀ p1, pinC.get pinFen s1 = some p1 → ∀ p2, pinC.get pinFen s2 = some p2 →
      rayFinding pinC pinFen "a1" (⟨'r', Side.w⟩ : Piece).color
          pinEff.defense d =
        (if ¬(p1.color = (⟨'r', Side.w⟩ : Piece).color) ∧
            ¬(p2.color = (⟨'r', Side.w⟩ : Piece).color) then
          some ⟨(if PIECE_VALS p2.type < PIECE_VALS p1.type ∧
              (pinEff.defense = Defense.defended ∨
                pinEff.defense = Defense.overdefended) then TacticKind.skewer
              else TacticKind.pin),
            [PieceInEffect.mk s1 p1.type p1.color [] [],
             PieceInEffect.mk s2 p2.type p2.color [] []]⟩
          else none)) ∧
    (∀ d ∈ DIRECTIONS (⟨'r', Side.w⟩ : Piece).type,
      (occupiedAlong pinC pinFen "a1" d.1 d.2).length < 2 →
      rayFinding pinC pinFen "a1" (⟨'r', Side.w⟩ : Piece).color
        pinEff.defense d = none)) :=
  ⟨rfl, Or.inr (Or.inl rfl), rfl,
    @C3_pin_skewer pinC pinFen "a1" none ⟨'r', Side.w⟩ pinEff rfl
      (Or.inr (Or.inl rfl)) rfl⟩
